import Mathlib

/-!
Verification development for the SIDR report layer (src/main.rs, src/report.rs).

Strings are modelled as lists of characters (`Str`); file/stdout destinations
are modelled as a `Str` of bytes written so far.  Interior mutability
(`RefCell`/`Cell`) is modelled by explicit functional state passing.
-/

abbrev Str := List Char

/-- Join a list of strings with a separator, mirroring the Rust write loops
`for i in 0..len { .. if i == len - 1 { no separator } else { sep } .. }`. -/
def joinSep (sep : Str) : List Str → Str
  | [] => []
  | [x] => x
  | x :: y :: t => x ++ sep ++ joinSep sep (y :: t)

/- ReportFormat from src/report.rs. -/
inductive ReportFormat where
  | Json
  | Csv
deriving DecidableEq

/- ReportType from src/report.rs (main.rs refers to it as the report output). -/
inductive ReportType where
  | ToFile
  | ToStdout
deriving DecidableEq

/- ReportSuffix from src/report.rs. -/
inductive ReportSuffix where
  | FileReport
  | ActivityHistory
  | InternetHistory
  | Unknown
deriving DecidableEq

/-- `ReportSuffix::message`: `serde_json::to_string` of the tag, i.e. the tag
wrapped in double quotes. -/
def ReportSuffix.message : ReportSuffix → Str
  | .FileReport => ("\"file_report\"").data
  | .ActivityHistory => ("\"activity_history\"").data
  | .InternetHistory => ("\"internet_history\"").data
  | .Unknown => ("\"\"").data

/- ReportProducer from src/report.rs: output directory, format, destination. -/
structure ReportProducer where
  dir : Str
  format : ReportFormat
  report_type : ReportType

/-- `PathBuf::join`: the directory joined with a file name via the path
separator. -/
def pathJoin (d n : Str) : Str := d ++ '/' :: n

/-- The extension chosen by `ReportProducer::new_report`. -/
def ReportProducer.ext (rp : ReportProducer) : Str :=
  match rp.format with
  | .Json => ("json").data
  | .Csv => ("csv").data

/-- The report path built by `ReportProducer::new_report`:
`dir.join(format!("{}_{}_{}.{}", recovered_hostname, report_suffix, timestamp, ext))`
with the timestamp a parameter (the code formats `Utc::now()`). -/
def ReportProducer.new_report_path (rp : ReportProducer)
    (recovered_hostname report_suffix timestamp : Str) : Str :=
  pathJoin rp.dir
    (recovered_hostname ++ '_' :: report_suffix ++ '_' :: timestamp ++ '.' :: rp.ext)

/- ==================== CSV sink (ReportCsv) ==================== -/

structure ReportCsv where
  report_type : ReportType
  report_suffix : Option Str
  first_record : Bool
  values : List (Str × Str)
  out : Str

/-- `ReportCsv::escape`: `s.replace('\"', "\"\"")`, one character at a time. -/
def ReportCsv.escape : Str → Str
  | [] => []
  | c :: rest =>
    if c = '"' then '"' :: '"' :: ReportCsv.escape rest
    else c :: ReportCsv.escape rest

/-- `ReportCsv::update_field_with_value`: replace the value of the first
matching field in place, else push a new `(field, value)` pair. -/
def updateFieldWithValue (f v : Str) : List (Str × Str) → List (Str × Str)
  | [] => [(f, v)]
  | (g, w) :: rest =>
    if g = f then (g, v) :: rest
    else (g, w) :: updateFieldWithValue f v rest

def ReportCsv.update_field_with_value (st : ReportCsv) (f v : Str) : ReportCsv :=
  { st with values := updateFieldWithValue f v st.values }

/-- `ReportCsv::str_val`: `update_field_with_value(f, format!("\"{}\"", escape(s)))`. -/
def ReportCsv.str_val (st : ReportCsv) (f : Str) (s : Str) : ReportCsv :=
  st.update_field_with_value f ('"' :: ReportCsv.escape s ++ ['"'])

/-- `ReportCsv::int_val`: `update_field_with_value(f, n.to_string())`
(decimal representation of the u64). -/
def ReportCsv.int_val (st : ReportCsv) (f : Str) (n : Nat) : ReportCsv :=
  st.update_field_with_value f (Nat.toDigits 10 n)

/-- `ReportCsv::set_field`: record the field name with an empty value. -/
def ReportCsv.set_field (st : ReportCsv) (f : Str) : ReportCsv :=
  st.update_field_with_value f []

/-- `ReportCsv::is_some_val_in_record`: some buffered value is non-empty. -/
def ReportCsv.is_some_val_in_record (st : ReportCsv) : Bool :=
  st.values.any fun p => !p.2.isEmpty

/-- `ReportCsv::write_header_file`: the field names joined by commas
(no trailing newline; `new_record` writes it). -/
def ReportCsv.write_header_file (st : ReportCsv) : ReportCsv :=
  { st with out := st.out ++ joinSep [','] (st.values.map Prod.fst) }

/-- `ReportCsv::write_header_stdout`: the literal `Report Suffix`, then the
field-name loop (note: no comma is written between them), then a newline. -/
def ReportCsv.write_header_stdout (st : ReportCsv) : ReportCsv :=
  { st with out :=
      st.out ++ ("Report Suffix").data ++ joinSep [','] (st.values.map Prod.fst)
        ++ ['\n'] }

/-- One data row: each buffered value, comma-separated (an empty value
contributes an empty cell), exactly the loop of `write_values_file` /
`write_values_stdout`. -/
def csvRow (values : List (Str × Str)) : Str :=
  joinSep [','] (values.map Prod.snd)

/-- Clearing performed by the write loops: every value becomes empty
(`v.1.clear()`); field names are kept. -/
def clearValues (values : List (Str × Str)) : List (Str × Str) :=
  values.map fun p => (p.1, [])

/-- `ReportCsv::write_values_file`: append the row to the file and clear the
values.  (The stray debug `println!` goes to stdout, not to the report file,
and is not part of the report output.)  No newline is written. -/
def ReportCsv.write_values_file (st : ReportCsv) : ReportCsv :=
  { st with out := st.out ++ csvRow st.values, values := clearValues st.values }

/-- `ReportCsv::write_values_stdout`: the report suffix and a comma, the row,
then a newline; values are cleared.  (The Rust code unwraps
`report_suffix`, which is always `Some` in stdout mode by construction in
`ReportCsv::new`; `getD` stands in for that unwrap.) -/
def ReportCsv.write_values_stdout (st : ReportCsv) : ReportCsv :=
  { st with
      out := st.out ++ (st.report_suffix.getD []) ++ ',' :: csvRow st.values ++ ['\n'],
      values := clearValues st.values }

/-- `ReportCsv::new_record`: if some value was recorded, write the header on
the first record, then the values, per destination. -/
def ReportCsv.new_record (st : ReportCsv) : ReportCsv :=
  if st.is_some_val_in_record then
    let st1 :=
      if st.first_record then
        let h :=
          match st.report_type with
          | .ToFile =>
            let h0 := st.write_header_file
            { h0 with out := h0.out ++ ['\n'] }
          | .ToStdout => st.write_header_stdout
        { h with first_record := false }
      else st
    match st1.report_type with
    | .ToFile => st1.write_values_file
    | .ToStdout => st1.write_values_stdout
  else st

/-- `ReportCsv::footer` (also the body of `Drop::drop`): emit the pending
record. -/
def ReportCsv.footer (st : ReportCsv) : ReportCsv := st.new_record

/- ==================== JSON sink (ReportJson) ==================== -/

structure ReportJson where
  report_type : ReportType
  report_suffix : Option Str
  first_record : Bool
  values : List Str
  out : Str

/-- Modelled from the spec: `json_escape` lives in src/utils.rs, which is not
present under src/.  Per the repository's own JSON report test expectations
(`test_report_jsonl`), it renders the string as a double-quoted JSON string
literal with backslash and double-quote escaped. -/
def json_escape (s : Str) : Str :=
  '"' :: (s.flatMap fun c =>
    if c = '"' then ['\\', '"']
    else if c = '\\' then ['\\', '\\']
    else [c]) ++ ['"']

/-- `ReportJson::str_val`: push `format!("\"{}\":{}", f, escape(s))`. -/
def ReportJson.str_val (st : ReportJson) (f : Str) (s : Str) : ReportJson :=
  { st with values := st.values ++ ['"' :: f ++ '"' :: ':' :: json_escape s] }

/-- `ReportJson::int_val`: push `format!("\"{}\":{}", f, n)`. -/
def ReportJson.int_val (st : ReportJson) (f : Str) (n : Nat) : ReportJson :=
  { st with values := st.values ++ ['"' :: f ++ '"' :: ':' :: Nat.toDigits 10 n] }

/-- `ReportJson::is_some_val_in_record`: the values buffer is non-empty. -/
def ReportJson.is_some_val_in_record (st : ReportJson) : Bool :=
  !st.values.isEmpty

/-- The write loop shared by `write_values_file`/`write_values_stdout`:
empty entries are skipped; a non-last entry is followed by a comma. -/
def jsonCells : List Str → Str
  | [] => []
  | [v] => if v.isEmpty then [] else v
  | v :: w :: t => (if v.isEmpty then [] else v ++ [',']) ++ jsonCells (w :: t)

/-- `ReportJson::write_values_file`: when the buffer is non-empty, write
`{`, the cells, `}` and clear the buffer. -/
def ReportJson.write_values_file (st : ReportJson) : ReportJson :=
  if st.values.isEmpty then st
  else { st with out := st.out ++ '{' :: jsonCells st.values ++ ['}'], values := [] }

/-- `ReportJson::write_values_stdout`: like the file variant, but a
`"report_suffix":<suffix>,` member is written unconditionally (outside the
emptiness guards), before the cells.  The Rust code unwraps `report_suffix`,
always `Some` in stdout mode by construction in `ReportJson::new`. -/
def ReportJson.write_values_stdout (st : ReportJson) : ReportJson :=
  let sfx := ("\"report_suffix\":").data ++ (st.report_suffix.getD []) ++ [',']
  if st.values.isEmpty then { st with out := st.out ++ sfx }
  else
    { st with
        out := st.out ++ '{' :: sfx ++ jsonCells st.values ++ ['}'],
        values := [] }

/-- `ReportJson::new_record`: if the buffer is non-empty, write a newline
separator unless this is the first record, then the record itself. -/
def ReportJson.new_record (st : ReportJson) : ReportJson :=
  if !st.values.isEmpty then
    let st1 :=
      if !st.first_record then { st with out := st.out ++ ['\n'] }
      else { st with first_record := false }
    match st1.report_type with
    | .ToFile => st1.write_values_file
    | .ToStdout => st1.write_values_stdout
  else st

/-- `ReportJson::footer` (also the body of `Drop::drop`). -/
def ReportJson.footer (st : ReportJson) : ReportJson := st.new_record

/- ==================== Directory scan (main.rs dump) ==================== -/

/-- Which per-file report generator a candidate file is handed to. -/
inductive EngineKind where
  | Ese
  | Sqlite
deriving DecidableEq

/- A directory tree entry: a plain file, or a subdirectory with its own
entries (mutually inductive so that the scan and its proofs can recurse
structurally). -/
mutual
inductive FsEntry : Type where
  | file : Str → FsEntry
  | dir : Str → FsForest → FsEntry

inductive FsForest : Type where
  | nil : FsForest
  | cons : FsEntry → FsForest → FsForest
end

/-- Accumulated observable effects of `dump`: startup-logger lines,
stderr failure reports, and the report-generation invocations made. -/
structure DumpAcc where
  log : List Str
  errs : List Str
  invoked : List (Str × EngineKind)

def DumpAcc.append (a b : DumpAcc) : DumpAcc :=
  ⟨a.log ++ b.log, a.errs ++ b.errs, a.invoked ++ b.invoked⟩

/-- The `Processing ESE db: {path}` logger line (written for both store
kinds in the Rust code). -/
def processingMsg (p : Str) : Str := ("Processing ESE db: ").data ++ p

/-- The `eprintln!` failure report for a failed per-file generation. -/
def failMsg (k : EngineKind) (p e : Str) : Str :=
  (match k with
   | .Ese => ("ese_generate_report(").data
   | .Sqlite => ("sqlite_generate_report(").data)
    ++ p ++ (") failed with error: ").data ++ e

/-- The per-kind error report: one stderr line if the generator failed,
nothing otherwise (`if let Err(e) = ..._generate_report(..)`). -/
def reportErrs (k : EngineKind) (r : Except Str Unit) (p : Str) : List Str :=
  match r with
  | .ok _ => []
  | .error e => [failMsg k p e]

/-- The `Found {n} Windows Search database(s)` line, printed only when the
directory's own count is positive. -/
def foundLog (n : Nat) : List Str :=
  if n > 0 then [("\nFound ").data ++ Nat.toDigits 10 n ++ (" Windows Search database(s)").data] else []

/-- Handling of one directory entry that is a file, from the body of the
`for entry in dir` loop: invoke the matching generator on a candidate name,
report (not propagate) its error, and count it as processed; skip any other
name. -/
def processFile (genE genS : Str → Except Str Unit) (p name : Str) :
    DumpAcc × Nat :=
  if name = ("Windows.edb").data then
    (⟨[processingMsg p], reportErrs .Ese (genE p) p, [(p, .Ese)]⟩, 1)
  else if name = ("Windows.db").data then
    (⟨[processingMsg p], reportErrs .Sqlite (genS p) p, [(p, .Sqlite)]⟩, 1)
  else (⟨[], [], []⟩, 0)

/- `dump`'s recursion: a subdirectory is scanned by a recursive `dump` call
(which appends its own `Found` line and keeps its own counter); files are
handled by `processFile`. -/
mutual
def dumpEntry (genE genS : Str → Except Str Unit) (d : Str) :
    FsEntry → DumpAcc × Nat
  | .file name => processFile genE genS (pathJoin d name) name
  | .dir name sub =>
    let r := dumpForest genE genS (pathJoin d name) sub
    (⟨r.1.log ++ foundLog r.2, r.1.errs, r.1.invoked⟩, 0)

def dumpForest (genE genS : Str → Except Str Unit) (d : Str) :
    FsForest → DumpAcc × Nat
  | .nil => (⟨[], [], []⟩, 0)
  | .cons e rest =>
    let a := dumpEntry genE genS d e
    let b := dumpForest genE genS d rest
    (a.1.append b.1, a.2 + b.2)
end

/-- `dump(f, ..)` on the directory `d` whose entries are `t`: run the scan
loop, append the `Found` line, and return `Ok(..)` — per-file generator
errors were already caught inside the loop.  (Logger writes, the only other
error source in the Rust body, are modelled as infallible; `read_dir`
failure panics rather than returning.) -/
def dump (genE genS : Str → Except Str Unit) (d : Str) (t : FsForest) :
    Except Str DumpAcc :=
  let r := dumpForest genE genS d t
  .ok ⟨r.1.log ++ foundLog r.2, r.1.errs, r.1.invoked⟩

/- All files of the tree, as (full path, file name) pairs, every
subdirectory entered. -/
mutual
def entryFiles (d : Str) : FsEntry → List (Str × Str)
  | .file name => [(pathJoin d name, name)]
  | .dir name sub => forestFiles (pathJoin d name) sub

def forestFiles (d : Str) : FsForest → List (Str × Str)
  | .nil => []
  | .cons e rest => entryFiles d e ++ forestFiles d rest
end

/-- The fixed-filename candidate test from the claim: a file is a candidate
store exactly when it is named `Windows.edb` (ESE) or `Windows.db`
(SQLite). -/
def candidateOf (pn : Str × Str) : Option (Str × EngineKind) :=
  if pn.2 = ("Windows.edb").data then some (pn.1, .Ese)
  else if pn.2 = ("Windows.db").data then some (pn.1, .Sqlite)
  else none

/-- The candidate store files of a tree, in scan order. -/
def candidates (d : Str) (t : FsForest) : List (Str × EngineKind) :=
  (forestFiles d t).filterMap candidateOf

/-- The stderr reports the claim expects: one per failing candidate. -/
def expectedErrs (genE genS : Str → Except Str Unit)
    (pk : Str × EngineKind) : List Str :=
  match pk.2 with
  | .Ese => reportErrs .Ese (genE pk.1) pk.1
  | .Sqlite => reportErrs .Sqlite (genS pk.1) pk.1

/- ==================== Claim-side helper definitions ==================== -/

/-- First-match field lookup in a CSV record buffer (the access pattern of
`iter_mut().find(|i| i.0 == f)`). -/
def lookupField (f : Str) : List (Str × Str) → Option Str
  | [] => none
  | (g, w) :: rest => if g = f then some w else lookupField f rest

/-- Number of comma-separated cells in one output line (valid when no cell
contains an embedded comma, as in the concrete runs below). -/
def numCells (s : Str) : Nat := s.count ',' + 1

/-- The header bytes `new_record` writes on the first non-empty record, per
destination (file: the field names joined by commas and a newline; stdout:
the fixed `Report Suffix` label, then the same joined field names — with no
comma after the label — and a newline). -/
def csvHeader (st : ReportCsv) : Str :=
  match st.report_type with
  | .ToFile => joinSep [','] (st.values.map Prod.fst) ++ ['\n']
  | .ToStdout =>
    ("Report Suffix").data ++ joinSep [','] (st.values.map Prod.fst) ++ ['\n']

/-- The record bytes `new_record` writes for the buffered record, per
destination. -/
def csvBody (st : ReportCsv) : Str :=
  match st.report_type with
  | .ToFile => csvRow st.values
  | .ToStdout => (st.report_suffix.getD []) ++ ',' :: csvRow st.values ++ ['\n']

/-- A field assignment driven into the JSON sink. -/
inductive JField where
  | str (f : Str) (s : Str)
  | int (f : Str) (n : Nat)

/-- Apply one field assignment to the JSON sink. -/
def setJField (st : ReportJson) : JField → ReportJson
  | .str f s => st.str_val f s
  | .int f n => st.int_val f n

/-- Emit one source record: set its fields, then end the record. -/
def emitJsonRecord (st : ReportJson) (r : List JField) : ReportJson :=
  (r.foldl setJField st).new_record

/-- Emit a sequence of source records through the JSON sink. -/
def runJson (st : ReportJson) : List (List JField) → ReportJson
  | [] => st
  | r :: rs => runJson (emitJsonRecord st r) rs

/-- The serialized member a field assignment contributes. -/
def jsonCellOf : JField → Str
  | .str f s => '"' :: f ++ '"' :: ':' :: json_escape s
  | .int f n => '"' :: f ++ '"' :: ':' :: Nat.toDigits 10 n

/-- One record as a single JSON object holding exactly its fields. -/
def jsonObjOf (r : List JField) : Str :=
  '{' :: joinSep [','] (r.map jsonCellOf) ++ ['}']

/-- A run of output chunks, each preceded by one newline (the shape of the
output once some record has already been written). -/
def jsonTail (l : List Str) : Str :=
  l.foldr (fun x acc => '\n' :: x ++ acc) []

/- ==================== Lemmas ==================== -/

theorem lookupField_update (f v : Str) (vs : List (Str × Str)) :
    lookupField f (updateFieldWithValue f v vs) = some v := by
  induction vs with
  | nil => simp [updateFieldWithValue, lookupField]
  | cons p rest ih =>
    obtain ⟨g, w⟩ := p
    by_cases h : g = f
    · simp [updateFieldWithValue, lookupField, h]
    · simp [updateFieldWithValue, lookupField, h, ih]

theorem update_names_of_mem (f v : Str) (vs : List (Str × Str))
    (h : f ∈ vs.map Prod.fst) :
    (updateFieldWithValue f v vs).map Prod.fst = vs.map Prod.fst := by
  induction vs with
  | nil => simp at h
  | cons p rest ih =>
    obtain ⟨g, w⟩ := p
    by_cases hg : g = f
    · simp [updateFieldWithValue, hg]
    · have : f ∈ rest.map Prod.fst := by
        simpa [hg, Ne.symm hg] using h
      simp [updateFieldWithValue, hg, ih this]

theorem update_of_not_mem (f v : Str) (vs : List (Str × Str))
    (h : f ∉ vs.map Prod.fst) :
    updateFieldWithValue f v vs = vs ++ [(f, v)] := by
  induction vs with
  | nil => simp [updateFieldWithValue]
  | cons p rest ih =>
    obtain ⟨g, w⟩ := p
    have hg : ¬g = f := by
      intro hgf
      exact h (by simp [hgf])
    have hr : f ∉ rest.map Prod.fst := by
      intro hm
      exact h (by simp [hm])
    simp [updateFieldWithValue, hg, ih hr]

theorem update_names_nodup (f v : Str) (vs : List (Str × Str))
    (h : (vs.map Prod.fst).Nodup) :
    ((updateFieldWithValue f v vs).map Prod.fst).Nodup := by
  by_cases hm : f ∈ vs.map Prod.fst
  · rw [update_names_of_mem f v vs hm]
    exact h
  · rw [update_of_not_mem f v vs hm]
    simp only [List.map_append, List.map_cons, List.map_nil]
    refine List.nodup_append.mpr ⟨h, List.nodup_singleton f, ?_⟩
    intro a ha hb
    simp only [List.mem_singleton] at hb
    subst hb
    exact hm ha

theorem escape_eq_dup_quotes (s : Str) :
    ReportCsv.escape s
      = s.flatMap fun c => if c = '"' then ['"', '"'] else [c] := by
  induction s with
  | nil => simp [ReportCsv.escape]
  | cons c rest ih =>
    by_cases h : c = '"'
    · simp [ReportCsv.escape, h, ih]
    · simp [ReportCsv.escape, h, ih]

theorem clearValues_names (vs : List (Str × Str)) :
    (clearValues vs).map Prod.fst = vs.map Prod.fst := by
  induction vs with
  | nil => rfl
  | cons p rest ih =>
    simp [clearValues]

theorem csv_new_record_names (st : ReportCsv) :
    st.new_record.values.map Prod.fst = st.values.map Prod.fst := by
  unfold ReportCsv.new_record
  by_cases hs : st.is_some_val_in_record
  · simp only [hs, if_pos]
    by_cases hf : st.first_record
    <;> cases hr : st.report_type
    <;> simp [hf, hr, ReportCsv.write_values_file, ReportCsv.write_values_stdout,
          ReportCsv.write_header_file, ReportCsv.write_header_stdout, clearValues_names]
  · simp [hs]

theorem csvRow_ne_nil_of_some_val (vs : List (Str × Str))
    (h : vs.any (fun p => !p.2.isEmpty) = true) : csvRow vs ≠ [] := by
  match vs with
  | [] => simp at h
  | [p] =>
    simp only [List.any_cons, List.any_nil, Bool.or_false] at h
    simp only [csvRow, List.map, joinSep]
    simpa [List.isEmpty_iff] using h
  | p :: q :: t =>
    simp [csvRow, joinSep]

theorem jsonCells_eq_joinSep (l : List Str) (h : ∀ v ∈ l, v ≠ []) :
    jsonCells l = joinSep [','] l := by
  match l with
  | [] => rfl
  | [v] =>
    have : ¬v.isEmpty := by
      simpa [List.isEmpty_iff] using h v (by simp)
    simp [jsonCells, joinSep, this]
  | v :: w :: t =>
    have hv : ¬v.isEmpty := by
      simpa [List.isEmpty_iff] using h v (by simp)
    have ih := jsonCells_eq_joinSep (w :: t) (fun x hx => h x (by simp [hx]))
    simp [jsonCells, joinSep, hv, ih]

theorem json_foldl_setJField (r : List JField) (st : ReportJson) :
    r.foldl setJField st
      = { st with values := st.values ++ r.map jsonCellOf } := by
  induction r generalizing st with
  | nil => simp
  | cons x t ih =>
    cases x with
    | str f s =>
      simp [List.foldl_cons, setJField, ReportJson.str_val, ih, jsonCellOf]
    | int f n =>
      simp [List.foldl_cons, setJField, ReportJson.int_val, ih, jsonCellOf]

theorem json_new_record_file (st : ReportJson)
    (ht : st.report_type = .ToFile) (hv : st.values ≠ []) :
    st.new_record
      = { st with
            out := st.out ++ (if st.first_record then [] else ['\n'])
              ++ '{' :: jsonCells st.values ++ ['}'],
            values := [],
            first_record := false } := by
  have hne : st.values.isEmpty = false := by
    simpa [List.isEmpty_iff] using hv
  unfold ReportJson.new_record
  by_cases hf : st.first_record
  <;> simp [hne, hf, ht, ReportJson.write_values_file]

theorem jsonCellOf_ne_nil (j : JField) : jsonCellOf j ≠ [] := by
  cases j <;> simp [jsonCellOf]

theorem emitJsonRecord_file (sfx : Option Str) (b : Bool) (o : Str)
    (r : List JField) (hr : r ≠ []) :
    emitJsonRecord ⟨.ToFile, sfx, b, [], o⟩ r
      = ⟨.ToFile, sfx, false, [],
          o ++ (if b then [] else ['\n']) ++ jsonObjOf r⟩ := by
  unfold emitJsonRecord
  rw [json_foldl_setJField]
  have hv : ([] : List Str) ++ r.map jsonCellOf ≠ [] := by
    simpa using hr
  rw [json_new_record_file _ rfl hv]
  have hc : jsonCells (r.map jsonCellOf)
      = joinSep [','] (r.map jsonCellOf) := by
    exact jsonCells_eq_joinSep _ (by
      intro v hv'
      obtain ⟨j, _, hj⟩ := List.mem_map.mp hv'
      exact hj ▸ jsonCellOf_ne_nil j)
  simp [hc, jsonObjOf]

theorem emitJsonRecord_empty (st : ReportJson) (hst : st.values = []) :
    emitJsonRecord st [] = st := by
  unfold emitJsonRecord
  simp [ReportJson.new_record, hst]

theorem joinSep_cons_jsonTail (x : Str) (l : List Str) :
    joinSep ['\n'] (x :: l) = x ++ jsonTail l := by
  induction l generalizing x with
  | nil => simp [joinSep, jsonTail]
  | cons y t ih =>
    simp only [joinSep, jsonTail, List.foldr_cons] at ih ⊢
    rw [ih y]
    simp

theorem runJson_out_rest (rs : List (List JField)) (sfx : Option Str) (o : Str) :
    (runJson ⟨.ToFile, sfx, false, [], o⟩ rs).out
      = o ++ jsonTail ((rs.filter (fun r => !r.isEmpty)).map jsonObjOf) := by
  induction rs generalizing o with
  | nil => simp [runJson, jsonTail]
  | cons r rest ih =>
    by_cases hr : r = []
    · subst hr
      rw [runJson, emitJsonRecord_empty _ rfl]
      simpa using ih o
    · have hb : r.isEmpty = false := by
        simpa [List.isEmpty_iff] using hr
      rw [runJson, emitJsonRecord_file _ _ _ _ hr]
      simp only [if_neg (by simp : ¬(false : Bool) = true)]
      rw [ih]
      simp [hb, jsonTail]

theorem runJson_out_first (rs : List (List JField)) (sfx : Option Str) (o : Str) :
    (runJson ⟨.ToFile, sfx, true, [], o⟩ rs).out
      = o ++ joinSep ['\n'] ((rs.filter (fun r => !r.isEmpty)).map jsonObjOf) := by
  induction rs generalizing o with
  | nil => simp [runJson, joinSep]
  | cons r rest ih =>
    by_cases hr : r = []
    · subst hr
      rw [runJson, emitJsonRecord_empty _ rfl]
      simpa using ih o
    · have hb : r.isEmpty = false := by
        simpa [List.isEmpty_iff] using hr
      rw [runJson, emitJsonRecord_file _ _ _ _ hr]
      simp only [if_pos rfl]
      rw [runJson_out_rest]
      simp [hb, joinSep_cons_jsonTail]



/- ==================== Claim theorems ==================== -/

/-- Claim C3: for every call of the Report Producer's `new_report` with a
recovered hostname and a report-kind suffix, the created report file's path
is the output directory joined with `{hostname}_{report_kind}_{timestamp}.{ext}`,
where ext is `json` when the selected format is JSON and `csv` when it is
CSV. -/
theorem C3_new_report_path (rp : ReportProducer) (hostname sfx ts : Str) :
    rp.new_report_path hostname sfx ts
      = rp.dir ++ '/' :: (hostname ++ '_' :: sfx ++ '_' :: ts ++ '.' ::
          (match rp.format with
           | .Json => ("json").data
           | .Csv => ("csv").data)) := rfl

/-- Claim C4: for both report sinks, ending a record that holds no non-empty
field values writes nothing and leaves the whole sink state (buffered
values, first-record flag, output) unchanged: empty records are silently
dropped.  (For the JSON sink a record with no values set has an empty
buffer, since `str_val`/`int_val` only push non-empty entries.) -/
theorem C4_empty_record_dropped (sj : ReportJson) (sc : ReportCsv) :
    (sj.values = [] → sj.new_record = sj)
    ∧ ((∀ p ∈ sc.values, p.2 = []) → sc.new_record = sc) := by
  constructor
  · intro h
    simp [ReportJson.new_record, h]
  · intro h
    have hs : sc.is_some_val_in_record = false := by
      simp only [ReportCsv.is_some_val_in_record, List.any_eq_false]
      intro p hp
      simp [List.isEmpty_iff, h p hp]
    simp [ReportCsv.new_record, hs]

/-- Witness for C4 at concrete empty records on both sinks. -/
theorem C4_empty_record_dropped_witness :
    (ReportJson.new_record ⟨ReportType.ToFile, none, true, [], []⟩
        = ⟨ReportType.ToFile, none, true, [], []⟩)
    ∧ (ReportCsv.new_record ⟨ReportType.ToFile, none, true, [(("f").data, [])], []⟩
        = ⟨ReportType.ToFile, none, true, [(("f").data, [])], []⟩) :=
  ⟨(C4_empty_record_dropped ⟨ReportType.ToFile, none, true, [], []⟩
      ⟨ReportType.ToFile, none, true, [(("f").data, [])], []⟩).1 rfl,
   (C4_empty_record_dropped ⟨ReportType.ToFile, none, true, [], []⟩
      ⟨ReportType.ToFile, none, true, [(("f").data, [])], []⟩).2 (by decide)⟩

/-- Claim C7: every sequence of records emitted through the (file) JSON sink
is serialized as one object per record holding exactly the members set for
that record, consecutive records separated by exactly one newline and no
separator before the first; empty records contribute nothing. -/
theorem C7_json_line_delimited (rs : List (List JField)) :
    (runJson ⟨ReportType.ToFile, none, true, [], []⟩ rs).out
      = joinSep ['\n'] ((rs.filter (fun r => !r.isEmpty)).map jsonObjOf) := by
  simpa using runJson_out_first rs none []

/-- Claim C10: a string value is stored by the CSV sink as an opening
double quote, the string with every embedded double quote doubled, and a
closing double quote; an integer value is stored unquoted as its decimal
digits. -/
theorem C10_csv_escaping (st : ReportCsv) (f s : Str) (n : Nat) :
    lookupField f (st.str_val f s).values
      = some ('"' :: (s.flatMap fun c => if c = '"' then ['"', '"'] else [c])
          ++ ['"'])
    ∧ lookupField f (st.int_val f n).values = some (Nat.toDigits 10 n) := by
  constructor
  · simpa [ReportCsv.str_val, ReportCsv.update_field_with_value,
      escape_eq_dup_quotes]
      using lookupField_update f ('"' :: ReportCsv.escape s ++ ['"']) st.values
  · simpa [ReportCsv.int_val, ReportCsv.update_field_with_value]
      using lookupField_update f (Nat.toDigits 10 n) st.values

/-- Claim C5: the CSV sink writes the header exactly once, immediately
before the first non-empty record, with the column names exactly the field
names of that first record in insertion order (stdout additionally carries
the fixed `Report Suffix` label); afterwards the first-record flag is down,
stays down under every operation, and no later record writes header bytes
again — and field-setting operations write no output at all. -/
theorem C5_csv_header_once (st : ReportCsv) (f s : Str) (n : Nat) :
    (st.first_record = true → st.is_some_val_in_record = true →
      st.new_record.out = st.out ++ csvHeader st ++ csvBody st
      ∧ st.new_record.first_record = false)
    ∧ (st.first_record = false →
      st.new_record.out
        = st.out ++ (if st.is_some_val_in_record then csvBody st else [])
      ∧ st.new_record.first_record = false)
    ∧ ((st.str_val f s).out = st.out
        ∧ (st.str_val f s).first_record = st.first_record)
    ∧ ((st.int_val f n).out = st.out
        ∧ (st.int_val f n).first_record = st.first_record)
    ∧ ((st.set_field f).out = st.out
        ∧ (st.set_field f).first_record = st.first_record) := by
  refine ⟨?_, ?_, ?_, ?_, ?_⟩
  · intro hf hs
    unfold ReportCsv.new_record
    cases hr : st.report_type
    <;> simp [hs, hf, hr, ReportCsv.write_header_file, ReportCsv.write_header_stdout,
          ReportCsv.write_values_file, ReportCsv.write_values_stdout,
          csvHeader, csvBody]
  · intro hf
    unfold ReportCsv.new_record
    by_cases hs : st.is_some_val_in_record
    <;> cases hr : st.report_type
    <;> simp [hs, hf, hr, ReportCsv.write_values_file, ReportCsv.write_values_stdout,
          csvBody]
  · exact ⟨rfl, rfl⟩
  · exact ⟨rfl, rfl⟩
  · exact ⟨rfl, rfl⟩

/-- Witness for C5: a concrete first record through the file CSV sink. -/
theorem C5_csv_header_once_witness :
    (ReportCsv.new_record
        ⟨ReportType.ToFile, none, true, [(("a").data, ("1").data)], []⟩).out
      = [] ++ csvHeader ⟨ReportType.ToFile, none, true, [(("a").data, ("1").data)], []⟩
        ++ csvBody ⟨ReportType.ToFile, none, true, [(("a").data, ("1").data)], []⟩
    ∧ (ReportCsv.new_record
        ⟨ReportType.ToFile, none, true, [(("a").data, ("1").data)], []⟩).first_record
      = false :=
  (C5_csv_header_once
    ⟨ReportType.ToFile, none, true, [(("a").data, ("1").data)], []⟩ [] [] 0).1
    rfl (by decide)

/-- Claim C6 fails on the code: in stdout mode the header line fuses the
`Report Suffix` label with the first field name (no comma is written
between them), so a one-field record yields a header line of one cell but a
data row of two cells.  This run evaluates the CSV sink at that failing
input. -/
theorem C6_stdout_header_cell_mismatch :
    (((⟨ReportType.ToStdout, some (ReportSuffix.message ReportSuffix.FileReport),
          true, [], []⟩ : ReportCsv).str_val ("f").data ("v").data).new_record).out
      = ("Report Suffixf").data ++ '\n' :: ("\"file_report\",\"v\"").data ++ ['\n']
    ∧ numCells (("Report Suffixf").data) = 1
    ∧ numCells (("\"file_report\",\"v\"").data) = 2 := by
  decide

/-- Claim C8: setting a value for a field already present in the CSV record
buffer replaces that entry's value in place (the name list is unchanged;
a fresh field is appended at the end, so column order is order of first
appearance), the set value is retrievable, and name uniqueness is an
invariant preserved by every sink operation. -/
theorem C8_field_names_unique (f v : Str) (n : Nat) (vs : List (Str × Str))
    (st : ReportCsv) :
    ((updateFieldWithValue f v vs).map Prod.fst
      = if f ∈ vs.map Prod.fst then vs.map Prod.fst
        else vs.map Prod.fst ++ [f])
    ∧ lookupField f (updateFieldWithValue f v vs) = some v
    ∧ ((vs.map Prod.fst).Nodup →
        ((updateFieldWithValue f v vs).map Prod.fst).Nodup)
    ∧ ((st.values.map Prod.fst).Nodup →
        ((st.str_val f v).values.map Prod.fst).Nodup
        ∧ ((st.int_val f n).values.map Prod.fst).Nodup
        ∧ ((st.set_field f).values.map Prod.fst).Nodup
        ∧ (st.new_record.values.map Prod.fst).Nodup
        ∧ (st.footer.values.map Prod.fst).Nodup) := by
  refine ⟨?_, lookupField_update f v vs, update_names_nodup f v vs, ?_⟩
  · by_cases hm : f ∈ vs.map Prod.fst
    · simp [hm, update_names_of_mem f v vs hm]
    · simp [hm, update_of_not_mem f v vs hm]
  · intro h
    refine ⟨?_, ?_, ?_, ?_, ?_⟩
    · exact update_names_nodup _ _ _ h
    · exact update_names_nodup _ _ _ h
    · exact update_names_nodup _ _ _ h
    · rw [csv_new_record_names]
      exact h
    · rw [ReportCsv.footer, csv_new_record_names]
      exact h

/-- Witness for C8 at a concrete two-field buffer and sink state. -/
theorem C8_field_names_unique_witness :
    (((⟨ReportType.ToFile, none, true,
          [(("a").data, []), (("b").data, ("1").data)], []⟩ : ReportCsv).str_val
        ("a").data ("x").data).values.map Prod.fst).Nodup :=
  ((C8_field_names_unique ("a").data ("x").data 0
      [(("a").data, []), (("b").data, ("1").data)]
      ⟨ReportType.ToFile, none, true,
        [(("a").data, []), (("b").data, ("1").data)], []⟩).2.2.2 (by decide)).1

/-- Claim C9: for both sinks the drop handler body is `footer`, which is
`new_record`; on a state with a pending non-empty record it flushes it:
the buffered values are cleared and a non-empty chunk is appended to the
output, so the final record is emitted without an explicit end-record
call. -/
theorem C9_footer_flushes (sj : ReportJson) (sc : ReportCsv) :
    sj.footer = sj.new_record
    ∧ sc.footer = sc.new_record
    ∧ (sj.values ≠ [] → sj.footer.values = []
        ∧ ∃ w, sj.footer.out = sj.out ++ w ∧ w ≠ [])
    ∧ (sc.is_some_val_in_record = true →
        (∀ p ∈ sc.footer.values, p.2 = [])
        ∧ ∃ w, sc.footer.out = sc.out ++ w ∧ w ≠ []) := by
  refine ⟨rfl, rfl, ?_, ?_⟩
  · intro h
    have hne : sj.values.isEmpty = false := by
      simpa [List.isEmpty_iff] using h
    unfold ReportJson.footer ReportJson.new_record
    by_cases hf : sj.first_record
    <;> cases hr : sj.report_type
    <;> simp [hne, hf, hr, ReportJson.write_values_file,
          ReportJson.write_values_stdout]
  · intro hs
    have hrow : csvRow sc.values ≠ [] :=
      csvRow_ne_nil_of_some_val sc.values hs
    have hclear : ∀ (a b : Str), (a, b) ∈ clearValues sc.values → b = [] := by
      intro a b hp
      obtain ⟨q, _, hq⟩ := List.mem_map.mp hp
      exact (congrArg Prod.snd hq).symm
    unfold ReportCsv.footer ReportCsv.new_record
    by_cases hf : sc.first_record
    <;> cases hr : sc.report_type
    <;> simp [hs, hf, hr, ReportCsv.write_header_file,
          ReportCsv.write_header_stdout, ReportCsv.write_values_file,
          ReportCsv.write_values_stdout, hclear, hrow]
    <;> exact hclear

/-- Witness for C9: concrete pending records flushed by `footer` on both
sinks. -/
theorem C9_footer_flushes_witness :
    ((ReportJson.footer ⟨ReportType.ToFile, none, true, [("x").data], []⟩).values = []
      ∧ ∃ w, (ReportJson.footer
            ⟨ReportType.ToFile, none, true, [("x").data], []⟩).out
          = [] ++ w ∧ w ≠ [])
    ∧ ((∀ p ∈ (ReportCsv.footer ⟨ReportType.ToFile, none, false,
            [(("f").data, ("1").data)], []⟩).values, p.2 = ([] : Str))
      ∧ ∃ w, (ReportCsv.footer ⟨ReportType.ToFile, none, false,
            [(("f").data, ("1").data)], []⟩).out = [] ++ w ∧ w ≠ []) :=
  ⟨(C9_footer_flushes ⟨ReportType.ToFile, none, true, [("x").data], []⟩
      ⟨ReportType.ToFile, none, false, [(("f").data, ("1").data)], []⟩).2.2.1
      (by decide),
   (C9_footer_flushes ⟨ReportType.ToFile, none, true, [("x").data], []⟩
      ⟨ReportType.ToFile, none, false, [(("f").data, ("1").data)], []⟩).2.2.2
      (by decide)⟩

mutual
theorem dumpEntry_acc (genE genS : Str → Except Str Unit) (d : Str) :
    ∀ e : FsEntry,
      (dumpEntry genE genS d e).1.invoked
        = (entryFiles d e).filterMap candidateOf
      ∧ (dumpEntry genE genS d e).1.errs
        = ((entryFiles d e).filterMap candidateOf).flatMap
            (expectedErrs genE genS)
  | .file name => by
    constructor
    · by_cases h1 : name = ("Windows.edb").data
      · simp [dumpEntry, entryFiles, processFile, candidateOf, h1]
      · by_cases h2 : name = ("Windows.db").data
        <;> simp [dumpEntry, entryFiles, processFile, candidateOf, h1, h2]
    · by_cases h1 : name = ("Windows.edb").data
      · simp [dumpEntry, entryFiles, processFile, candidateOf, expectedErrs, h1]
      · by_cases h2 : name = ("Windows.db").data
        <;> simp [dumpEntry, entryFiles, processFile, candidateOf, expectedErrs,
              h1, h2]
  | .dir name sub => by
    have h := dumpForest_acc genE genS (pathJoin d name) sub
    exact ⟨by simp [dumpEntry, entryFiles, h.1], by simp [dumpEntry, entryFiles, h.2]⟩

theorem dumpForest_acc (genE genS : Str → Except Str Unit) (d : Str) :
    ∀ t : FsForest,
      (dumpForest genE genS d t).1.invoked
        = (forestFiles d t).filterMap candidateOf
      ∧ (dumpForest genE genS d t).1.errs
        = ((forestFiles d t).filterMap candidateOf).flatMap
            (expectedErrs genE genS)
  | .nil => by simp [dumpForest, forestFiles]
  | .cons e rest => by
    have he := dumpEntry_acc genE genS d e
    have hr := dumpForest_acc genE genS d rest
    exact ⟨by simp [dumpForest, forestFiles, DumpAcc.append, he.1, hr.1,
            List.filterMap_append],
          by simp [dumpForest, forestFiles, DumpAcc.append, he.2, hr.2,
            List.filterMap_append]⟩
end

/-- Claim C1: for every directory tree and any per-file generators, the scan
returns `Ok`; every candidate store file is handed to its generator (files
after a failing one included, since the invocation list does not depend on
the generators' results), and each failing candidate contributes exactly
its stderr failure report. -/
theorem C1_scan_reports_failures_and_continues
    (genE genS : Str → Except Str Unit) (d : Str) (t : FsForest) :
    ∃ acc, dump genE genS d t = .ok acc
      ∧ acc.invoked = candidates d t
      ∧ acc.errs = (candidates d t).flatMap (expectedErrs genE genS) := by
  have h := dumpForest_acc genE genS d t
  exact ⟨_, rfl, by simpa [dump, candidates] using h.1,
    by simpa [dump, candidates] using h.2⟩

/-- Claim C2: the scan recurses into every subdirectory (`forestFiles` lists
every file of the tree) and invokes per-file report generation exactly on
the files whose name is `Windows.edb` (ESE generator) or `Windows.db`
(SQLite generator), in scan order; all other files are skipped. -/
theorem C2_candidate_selection
    (genE genS : Str → Except Str Unit) (d : Str) (t : FsForest) :
    ∃ acc, dump genE genS d t = .ok acc
      ∧ acc.invoked = (forestFiles d t).filterMap candidateOf := by
  have h := dumpForest_acc genE genS d t
  exact ⟨_, rfl, by simpa [dump] using h.1⟩
